import Mathlib

/-!
Shallow embedding of the translator module (`src/translator/index.js`):
cache-key normalization, long-text chunking (`chunkText`), request
construction (GET/POST threshold), and the defensive positional response
parser, together with the `translate` orchestrator modelled as a pure
state-passing function over an environment of external collaborators
(language table, token generator, HTTP transport).

JavaScript values flowing through the parser are modelled by `JVal`
(JSON-decodable values plus `undefined`; JSON objects are not modelled
because the parser only performs positional indexing, which on an object
yields `undefined` just as on the other non-array cases modelled here).
-/

mutual
inductive JVal where
  | undefined : JVal
  | null : JVal
  | bool (b : Bool) : JVal
  | num (n : Int) : JVal
  | str (s : String) : JVal
  | arr (xs : JArr) : JVal

inductive JArr where
  | nil : JArr
  | cons (hd : JVal) (tl : JArr) : JArr
end

/-- Conversion from a Lean list, for writing array literals. -/
def jarr : List JVal → JArr
  | [] => .nil
  | v :: vs => .cons v (jarr vs)

/-- Element lookup in a JS array, `none` when out of range. -/
def JArr.get? : JArr → Nat → Option JVal
  | .nil, _ => none
  | .cons v _, 0 => some v
  | .cons _ tl, n+1 => tl.get? n

/-- JavaScript truthiness of a value. -/
def truthy : JVal → Bool
  | .undefined => false
  | .null => false
  | .bool b => b
  | .num n => n != 0
  | .str s => s != ""
  | .arr _ => true

/-- Array-join part of JavaScript string coercion: elements are converted
recursively, `null`/`undefined` become the empty string, separator `,`. -/
def jsToStringArr : JArr → String
  | .nil => ""
  | .cons v tl =>
      (match v with
       | .undefined => ""
       | .null => ""
       | .bool b => cond b "true" "false"
       | .num k => toString k
       | .str s => s
       | .arr xs => jsToStringArr xs) ++
      (match tl with
       | .nil => ""
       | tl => "," ++ jsToStringArr tl)

/-- JavaScript `String(v)` coercion (also used by template literals and
string concatenation `+=`). -/
def jsToString : JVal → String
  | .undefined => "undefined"
  | .null => "null"
  | .bool b => cond b "true" "false"
  | .num k => toString k
  | .str s => s
  | .arr xs => jsToStringArr xs

/-- Indexing `v[i]` on a non-nullish value: array element, single-character
string, or `undefined` for primitives, exactly as in JavaScript. -/
def jsIndex (v : JVal) (i : Nat) : JVal :=
  match v with
  | .arr xs => (xs.get? i).getD .undefined
  | .str s =>
      match s.data.get? i with
      | some ch => .str ⟨[ch]⟩
      | none => .undefined
  | _ => .undefined

/-- Optional-chained indexing `v?.[i]`: `undefined` when `v` is nullish. -/
def optIndex (v : JVal) (i : Nat) : JVal :=
  match v with
  | .undefined => .undefined
  | .null => .undefined
  | v => jsIndex v i

/-- Nullish coalescing `a ?? b`. -/
def jsCoalesce (a b : JVal) : JVal :=
  match a with
  | .undefined => b
  | .null => b
  | a => a

/-- JavaScript strict equality `===`. Two arrays compare by reference; the
parser only ever compares a freshly indexed body value with a scalar, so
the two operands are never the same array object and the `arr`/`arr` case
is `false`. -/
def jsStrictEq : JVal → JVal → Bool
  | .undefined, .undefined => true
  | .null, .null => true
  | .bool a, .bool b => a == b
  | .num a, .num b => a == b
  | .str a, .str b => a == b
  | _, _ => false

/-- Result of `languages.getISOCode`: per the external contract an ISO
string, `null`, or `false`. -/
inductive ISORes where
  | str (s : String) : ISORes
  | jnull : ISORes
  | jfalse : ISORes

/-- The JS value denoted by a `getISOCode` result. -/
def ISORes.toJVal : ISORes → JVal
  | .str s => .str s
  | .jnull => .null
  | .jfalse => .bool false

/-- Template-literal coercion of a `getISOCode` result, as in the cache key
built with backquoted interpolation. -/
def ISORes.render : ISORes → String
  | .str s => s
  | .jnull => "null"
  | .jfalse => "false"

/-- Coercion used by `querystring.stringify` for a parameter value:
strings kept, booleans printed, `null` (a non-primitive for stringify)
becomes the empty string. -/
def ISORes.qsRender : ISORes → String
  | .str s => s
  | .jnull => ""
  | .jfalse => "false"

structure Token where
  name : String
  value : String

inductive Request where
  | get (url : String)
  | post (url : String) (body : String)

/-- Transport response: status code plus the two possible decodings of the
body (`response.body.json()`, and `JSON.parse` of `response.body.text()`),
each `none` when that decoding fails. -/
structure Response where
  statusCode : Nat
  json : Option JVal
  textJson : Option JVal

/-- Errors surfaced by `translate`: tagged `makeError(code, message)`
values, or a raw TypeError escaping the parser. -/
inductive Err where
  | api (code : Nat) (message : String)
  | typeError (message : String)

/-- Observable interactions with the token generator and the transport. -/
inductive Effect where
  | tokenCall (text : String)
  | transportCall (req : Request)

/-- External collaborators of the orchestrator. -/
structure Env where
  isSupported : JVal → Bool
  getISOCode : JVal → ISORes
  tokenGen : String → Option Token
  transport : Request → Except String Response

structure LangDet where
  didYouMean : Bool
  iso : JVal

structure TextDet where
  autoCorrected : Bool
  value : String
  didYouMean : Bool

structure FromInfo where
  language : LangDet
  text : TextDet

/-- The result object built by `translate` (field `from` of the source is
named `from_` here because `from` is a Lean keyword). -/
structure TranslateResult where
  text : String
  from_ : FromInfo
  raw : JVal

/-- Caller options object; `none` models an absent property (the source
distinguishes absent from present-but-undefined via `hasOwnProperty`).
`from` is `from_` as above. -/
structure Options where
  from_ : Option JVal := none
  to_ : Option JVal := none
  raw : JVal := .undefined
  maxChunkChars : JVal := .undefined

/-- Cache state: association list of key, stored result and absolute
expiry instant (node-cache with `stdTTL: 86400`, lazy expiry on read). -/
def Cache := List (String × TranslateResult × Nat)

def cacheLookup : Cache → String → Option (TranslateResult × Nat)
  | [], _ => none
  | (k, v, e) :: rest, key => if k = key then some (v, e) else cacheLookup rest key

def cacheGet (c : Cache) (now : Nat) (key : String) : Option TranslateResult :=
  match cacheLookup c key with
  | some (v, e) => if now < e then some v else none
  | none => none

def cacheTTL : Nat := 86400

def cacheSet (c : Cache) (now : Nat) (key : String) (v : TranslateResult) : Cache :=
  (key, v, now + cacheTTL) :: c

/-! ## Chunk Engine (`chunkText`, source lines 49-68) -/

/-- Whitespace class of the JavaScript regexp `\s`. -/
def isJsSpace (c : Char) : Bool :=
  c == ' ' || c == Char.ofNat 9 || c == Char.ofNat 10 || c == Char.ofNat 13 ||
  c == Char.ofNat 11 || c == Char.ofNat 12 ||
  c == Char.ofNat 0xa0 || c == Char.ofNat 0x1680 ||
  (0x2000 ≤ c.toNat && c.toNat ≤ 0x200a) ||
  c == Char.ofNat 0x2028 || c == Char.ofNat 0x2029 || c == Char.ofNat 0x202f ||
  c == Char.ofNat 0x205f || c == Char.ofNat 0x3000 || c == Char.ofNat 0xfeff

/-- Worker for `tokenize`: accumulates the current run (reversed) and emits
alternating runs; a trailing whitespace run is followed by an empty token,
matching `str.split(/(\s+)/)`. -/
def tokAux (cur : List Char) (inSpace : Bool) : List Char → List (List Char)
  | [] => if inSpace then [cur.reverse, []] else [cur.reverse]
  | c :: cs =>
    if isJsSpace c == inSpace then tokAux (c :: cur) inSpace cs
    else cur.reverse :: tokAux [c] (isJsSpace c) cs

/-- Model of `str.split(/(\s+)/)`: splits on maximal whitespace runs while
keeping the runs as tokens. -/
def tokenize (l : List Char) : List (List Char) := tokAux [] false l

/-- Model of the inner `while (current.length > limit)` hard-split loop.
The fuel argument (instantiated with the length of `current`) and the
`0 < limit` guard make the definition total; for `0 < limit` each
iteration drops `limit ≥ 1` characters so the fuel is never exhausted and
this coincides with the source loop, while for `limit = 0` the source
would not terminate (unreachable: the orchestrator forces `limit ≥ 1` and
every claim quantifies over positive limits). -/
def hardSplitGo : Nat → Nat → List Char → List (List Char) × List Char
  | 0, _, cur => ([], cur)
  | n+1, limit, cur =>
    if 0 < limit && limit < cur.length then
      let r := hardSplitGo n limit (cur.drop limit)
      (cur.take limit :: r.1, r.2)
    else ([], cur)

def hardSplit (limit : Nat) (cur : List Char) : List (List Char) × List Char :=
  hardSplitGo cur.length limit cur

/-- The token-accumulation loop of `chunkText`: greedy accumulation into
`current`, flushing when the next token would overflow a non-empty
`current`, hard-splitting the incoming token, and pushing a final
non-empty `current`. -/
def chunkCore (limit : Nat) : List Char → List (List Char) → List (List Char)
  | current, [] => if current.isEmpty then [] else [current]
  | current, tok :: toks =>
    if limit < (current ++ tok).length && !current.isEmpty then
      let hs := hardSplit limit tok
      current :: (hs.1 ++ chunkCore limit hs.2 toks)
    else chunkCore limit (current ++ tok) toks

/-- The Chunk Engine `chunkText(str, limit)`. -/
def chunkText (str : String) (limit : Nat) : List String :=
  if str.length ≤ limit then [str]
  else (chunkCore limit [] (tokenize str.data)).map (fun l => ⟨l⟩)

/-! ## Request Builder (source lines 93-127) -/

/-- Characters left unescaped by `querystring.escape` (the
`encodeURIComponent` set). -/
def qsUnescapedChar (c : Char) : Bool :=
  ('A' ≤ c && c ≤ 'Z') || ('a' ≤ c && c ≤ 'z') || ('0' ≤ c && c ≤ '9') ||
  c == '-' || c == '_' || c == '.' || c == '!' || c == '~' || c == '*' ||
  c == Char.ofNat 39 || c == '(' || c == ')'

/-- UTF-8 bytes of a code point. -/
def utf8Bytes (n : Nat) : List Nat :=
  if n < 0x80 then [n]
  else if n < 0x800 then [0xC0 + n / 0x40, 0x80 + n % 0x40]
  else if n < 0x10000 then [0xE0 + n / 0x1000, 0x80 + (n / 0x40) % 0x40, 0x80 + n % 0x40]
  else [0xF0 + n / 0x40000, 0x80 + (n / 0x1000) % 0x40, 0x80 + (n / 0x40) % 0x40, 0x80 + n % 0x40]

def hexDigit (n : Nat) : Char := Char.ofNat (if n < 10 then 48 + n else 55 + n)

def pctEncodeByte (b : Nat) : List Char := ['%', hexDigit (b / 16), hexDigit (b % 16)]

/-- Model of `querystring.escape` (percent-encoding). -/
def qsEscape (s : String) : String :=
  ⟨(s.data.map (fun c =>
      if qsUnescapedChar c then [c]
      else ((utf8Bytes c.toNat).map pctEncodeByte).flatten)).flatten⟩

/-- Characters left unescaped by the `application/x-www-form-urlencoded`
serializer used by `URLSearchParams.toString`. -/
def formUnescapedChar (c : Char) : Bool :=
  ('A' ≤ c && c ≤ 'Z') || ('a' ≤ c && c ≤ 'z') || ('0' ≤ c && c ≤ '9') ||
  c == '*' || c == '-' || c == '.' || c == '_'

/-- Model of `URLSearchParams` serialization of a value (space becomes
`+`). -/
def formEscape (s : String) : String :=
  ⟨(s.data.map (fun c =>
      if c == ' ' then ['+']
      else if formUnescapedChar c then [c]
      else ((utf8Bytes c.toNat).map pctEncodeByte).flatten)).flatten⟩

/-- Values of the outbound parameter object. -/
inductive QVal where
  | s (v : String)
  | n (v : Int)
  | iso (v : ISORes)
  | list (vs : List String)

/-- Encoded `key=value` segments produced by `querystring.stringify` for
one entry; an array value repeats the key. -/
def QVal.segments (k : String) : QVal → List String
  | .s v => [qsEscape k ++ "=" ++ qsEscape v]
  | .n v => [qsEscape k ++ "=" ++ qsEscape (toString v)]
  | .iso r => [qsEscape k ++ "=" ++ qsEscape r.qsRender]
  | .list vs => vs.map (fun v => qsEscape k ++ "=" ++ qsEscape v)

def qsStringify (data : List (String × QVal)) : String :=
  String.intercalate "&" ((data.map (fun p => QVal.segments p.1 p.2)).flatten)

/-- JS object property write with insertion-order semantics: an existing
key is overwritten in place, a new key is appended. -/
def objSet (m : List (String × QVal)) (k : String) (v : QVal) : List (String × QVal) :=
  if m.any (fun p => p.1 == k) then m.map (fun p => if p.1 == k then (k, v) else p)
  else m ++ [(k, v)]

/-- JS `delete obj[k]`. -/
def objDel (m : List (String × QVal)) (k : String) : List (String × QVal) :=
  m.filter (fun p => p.1 != k)

def baseUrl : String := "https://translate.google.com/translate_a/single"

/-- The parameter object literal of the source, minus the computed token
key. -/
def fixedData (fromISO toISO : ISORes) (text : String) : List (String × QVal) :=
  [("client", .s "gtx"), ("sl", .iso fromISO), ("tl", .iso toISO), ("hl", .iso toISO),
   ("dt", .list ["at", "bd", "ex", "ld", "md", "qca", "rw", "rm", "ss", "t"]),
   ("ie", .s "UTF-8"), ("oe", .s "UTF-8"), ("otf", .n 1), ("ssel", .n 0), ("tsel", .n 0),
   ("kc", .n 7), ("q", .s text)]

/-- The full parameter object, with the dynamically-named token entry. -/
def mkData (fromISO toISO : ISORes) (text : String) (tok : Token) : List (String × QVal) :=
  objSet (fixedData fromISO toISO text) tok.name (.s tok.value)

/-- The fully-encoded GET URL. -/
def getUrl (fromISO toISO : ISORes) (text : String) (tok : Token) : String :=
  baseUrl ++ "?" ++ qsStringify (mkData fromISO toISO text tok)

/-- The URL-encoded POST body `q=<text>`. -/
def formBody (text : String) : String := "q=" ++ formEscape text

/-- Request Builder: GET with inline `q`, switched to POST with `q` moved
to the body when the encoded URL exceeds 2048 characters. -/
def buildRequest (fromISO toISO : ISORes) (text : String) (tok : Token) : Request :=
  let url := getUrl fromISO toISO text tok
  if 2048 < url.length then
    .post (baseUrl ++ "?" ++ qsStringify (objDel (mkData fromISO toISO text tok) "q"))
      (formBody text)
  else .get url

/-! ## Response Parser (source lines 140-201) -/

/-- JSON-decode step with the single text fallback (source lines 140-151):
a 502 error exactly when both decodings fail. -/
def decodeBody (r : Response) : Except Err JVal :=
  match r.json with
  | some b => .ok b
  | none =>
      match r.textJson with
      | some b => .ok b
      | none => .error (.api 502 "Unexpected translate response format")

/-- Translation-text accumulation over the entries of `body[0]`. -/
def extractTextArr : JArr → String
  | .nil => ""
  | .cons obj rest =>
      (if truthy obj && truthy (jsIndex obj 0) then jsToString (jsIndex obj 0) else "") ++
      extractTextArr rest

/-- Translated-text extraction (source lines 174-180). -/
def extractText (body : JVal) : String :=
  match body with
  | .arr xs =>
      match jsIndex (.arr xs) 0 with
      | .arr objs => extractTextArr objs
      | _ => ""
  | _ => ""

/-- Detected source language `body?.[8]?.[0]?.[0] ?? body?.[2] ?? fromISO`
(source line 183). -/
def detectedOf (body fromJ : JVal) : JVal :=
  jsCoalesce (optIndex (optIndex (optIndex body 8) 0) 0) (jsCoalesce (optIndex body 2) fromJ)

/-- Language-detection fields (source lines 184-189). -/
def mkLangDet (body fromJ : JVal) : LangDet :=
  let d := detectedOf body fromJ
  if truthy d && !jsStrictEq d fromJ then ⟨true, d⟩
  else ⟨false, if truthy d then d else fromJ⟩

/-- Literal prefix match; on success returns the remainder. -/
def matchPat : List Char → List Char → Option (List Char)
  | [], rest => some rest
  | _ :: _, [] => none
  | p :: ps, c :: cs => if p = c then matchPat ps cs else none

/-- Fueled worker for global literal replacement. With fuel at least the
length of the subject and a non-empty pattern the fuel is never exhausted;
the source only uses the non-empty patterns of the two emphasis-marker
rewrites. -/
def replaceGo (pat repl : List Char) : Nat → List Char → List Char
  | _, [] => []
  | 0, l => l
  | n+1, c :: cs =>
    match matchPat pat (c :: cs) with
    | some rest => repl ++ replaceGo pat repl n rest
    | none => c :: replaceGo pat repl n cs

/-- Model of `s.replace(/pat/g, repl)` for a literal pattern. -/
def replaceAll (s pat repl : String) : String :=
  ⟨replaceGo pat.data repl.data s.data.length s.data⟩

/-- Spelling-suggestion fields (source lines 191-201). A truthy first
element of the array at index 7 that is not a string makes the source
throw `TypeError` at `str.replace`. -/
def mkTextDet (body : JVal) : Except Err TextDet :=
  match optIndex body 7 with
  | .arr xs =>
      if truthy (jsIndex (.arr xs) 0) then
        match jsIndex (.arr xs) 0 with
        | .str s =>
            let v := replaceAll (replaceAll s "<b><i>" "[") "</i></b>" "]"
            if jsStrictEq (jsIndex (.arr xs) 5) (.bool true) then .ok ⟨true, v, false⟩
            else .ok ⟨false, v, true⟩
        | _ => .error (.typeError "str.replace is not a function")
      else .ok ⟨false, "", false⟩
  | _ => .ok ⟨false, "", false⟩

/-- Whole-result extraction from a decoded body (source lines 153-201). -/
def extract (rawFlag : Bool) (fromISO : ISORes) (body : JVal) : Except Err TranslateResult :=
  match mkTextDet body with
  | .error e => .error e
  | .ok td =>
      .ok ⟨extractText body,
           ⟨mkLangDet body fromISO.toJVal, td⟩,
           if rawFlag then body else .str ""⟩

/-! ## Orchestrator (`translate`, source lines 22-205) -/

/-- One step of the `forEach` validation loop: a truthy unsupported code
overwrites the pending error. -/
def langCheck (env : Env) (lang : JVal) (acc : Option Err) : Option Err :=
  if truthy lang && !env.isSupported lang then
    some (.api 400 ("The language '" ++ jsToString lang ++ "' is not supported."))
  else acc

/-- Validation of `[options.from, options.to]` (source lines 27-33); `to`
is checked second and overwrites any pending error. -/
def validateLangs (env : Env) (o : Options) : Option Err :=
  langCheck env (o.to_.getD .undefined) (langCheck env (o.from_.getD .undefined) none)

/-- Normalized source code: `getISOCode` of `options.from` when the
property is present (`hasOwnProperty`), of `"auto"` otherwise. -/
def normFrom (env : Env) (o : Options) : ISORes :=
  env.getISOCode (o.from_.getD (.str "auto"))

/-- Normalized target code, defaulting to `"fr"`. -/
def normTo (env : Env) (o : Options) : ISORes :=
  env.getISOCode (o.to_.getD (.str "fr"))

/-- The cache key, a template literal coercing the normalized codes. -/
def mkKey (fromISO toISO : ISORes) (text : String) : String :=
  fromISO.render ++ "-" ++ toISO.render ++ "-" ++ text

/-- The in-place option mutation `options.raw = Boolean(options.raw)`. -/
def mutOpts (o : Options) : Options := { o with raw := .bool (truthy o.raw) }

/-- JavaScript `Number(v)` coercion, as an `Option` with `none` for `NaN`.
String parsing covers the decimal-digit strings (signs, fractions and
stray whitespace are not modelled: no claim depends on them), and a
one-element array coerces through its element only when that element is a
number. -/
def jsToNumber : JVal → Option Int
  | .undefined => none
  | .null => some 0
  | .bool b => some (if b then 1 else 0)
  | .num n => some n
  | .str s => if s = "" then some 0 else (s.toNat?.map Int.ofNat)
  | .arr .nil => some 0
  | .arr (.cons v .nil) =>
      (match v with
       | .num n => some n
       | _ => none)
  | .arr _ => none

/-- Resolution of `maxChunkChars`:
`Math.max(1, Number(options.maxChunkChars) || 4500)`. -/
def resolveMaxChunk (o : Options) : Nat :=
  match jsToNumber o.maxChunkChars with
  | some k => if k = 0 then 4500 else max 1 k.toNat
  | none => 4500

/-- Initial `merged.from` of the chunked path (source line 74). -/
def initFrom (fromISO : ISORes) : FromInfo :=
  ⟨⟨false, fromISO.toJVal⟩, ⟨false, "", false⟩⟩

/-- Sequential loop over the chunks (source lines 77-82): each chunk is
translated with the shared cache threaded through, texts are concatenated,
the first chunk supplies the detection metadata, raw payloads are
collected when requested, and a failure stops the loop. -/
def chunkFold (tr : String → Cache → Option (Except Err TranslateResult × Cache × List Effect))
    (rawFlag : Bool) :
    List String → Cache → String → FromInfo → Bool → List JVal → List Effect →
    Option (Except Err (String × FromInfo × List JVal) × Cache × List Effect)
  | [], c, accText, accFrom, _, accRaws, accEffs =>
      some (.ok (accText, accFrom, accRaws), c, accEffs)
  | chunk :: rest, c, accText, accFrom, first, accRaws, accEffs =>
      match tr chunk c with
      | none => none
      | some (.error e, c', effs) => some (.error e, c', accEffs ++ effs)
      | some (.ok r, c', effs) =>
          chunkFold tr rawFlag rest c' (accText ++ r.text)
            (if first then r.from_ else accFrom) false
            (if rawFlag then accRaws ++ [r.raw] else accRaws)
            (accEffs ++ effs)

/-- Output of one `translate` call: the result or thrown error, the cache
afterwards, the token/transport interactions performed, and the caller's
options object afterwards (it is mutated in place by the source). -/
structure TOut where
  res : Except Err TranslateResult
  cache : Cache
  effs : List Effect
  opts : Options

/-- The `translate` orchestrator. The first argument is recursion fuel for
the chunked path's recursive self-call (`none` means the fuel ran out; any
fuel larger than the chunk recursion depth gives the source behaviour).
Time is the instant `now`, constant within one call. -/
def translateF : Nat → Env → Nat → Cache → String → Options → Option TOut
  | 0, _, _, _, _, _ => none
  | fuel+1, env, now, c, text, o =>
    match validateLangs env o with
    | some e => some ⟨.error e, c, [], o⟩
    | none =>
      let fromISO := normFrom env o
      let toISO := normTo env o
      let o' := mutOpts o
      let rawFlag := truthy o.raw
      let key := mkKey fromISO toISO text
      match cacheGet c now key with
      | some r => some ⟨.ok r, c, [], o'⟩
      | none =>
        let maxChunk := resolveMaxChunk o
        let chunks := chunkText text maxChunk
        if 1 < chunks.length then
          match chunkFold
              (fun ch cc =>
                (translateF fuel env now cc ch
                    ⟨some fromISO.toJVal, some toISO.toJVal, .bool rawFlag,
                     .num (maxChunk : Int)⟩).map
                  (fun t => (t.res, t.cache, t.effs)))
              rawFlag chunks c "" (initFrom fromISO) true [] [] with
          | none => none
          | some (.error e, c', effs) => some ⟨.error e, c', effs, o'⟩
          | some (.ok (mText, mFrom, mRaws), c', effs) =>
              let merged : TranslateResult :=
                ⟨mText, mFrom, if rawFlag then .arr (jarr mRaws) else .str ""⟩
              some ⟨.ok merged, cacheSet c' now key merged, effs, o'⟩
        else
          match env.tokenGen text with
          | none =>
              some ⟨.error (.api 503 "Failed to generate translate token"), c,
                [.tokenCall text], o'⟩
          | some tok =>
            if tok.name = "" || tok.value = "" then
              some ⟨.error (.api 503 "Failed to generate translate token"), c,
                [.tokenCall text], o'⟩
            else
              let req := buildRequest fromISO toISO text tok
              match env.transport req with
              | .error msg =>
                  some ⟨.error (.api 503 ("Translate request failed: " ++ msg)), c,
                    [.tokenCall text, .transportCall req], o'⟩
              | .ok resp =>
                if 400 ≤ resp.statusCode then
                  some ⟨.error (.api resp.statusCode
                      ("Translate request failed with status " ++ toString resp.statusCode)), c,
                    [.tokenCall text, .transportCall req], o'⟩
                else
                  match decodeBody resp with
                  | .error e => some ⟨.error e, c, [.tokenCall text, .transportCall req], o'⟩
                  | .ok body =>
                    match extract rawFlag fromISO body with
                    | .error e =>
                        some ⟨.error e, c, [.tokenCall text, .transportCall req], o'⟩
                    | .ok r =>
                        some ⟨.ok r, cacheSet c now key r,
                          [.tokenCall text, .transportCall req], o'⟩

/-! ## Concrete instances used by witnesses and counterexamples -/

/-- Suggestion entry of a response body: `[7][0]` a marked-up string,
`[7][5]` the boolean `true`. -/
def suggestionArr : JArr :=
  jarr [.str "<b><i>helo</i></b>", .null, .null, .null, .null, .bool true]

def body7 : JVal :=
  .arr (jarr [.null, .null, .null, .null, .null, .null, .null, .arr suggestionArr])

/-- Body whose index 2 holds the empty string (a falsy detected code). -/
def body6 : JVal := .arr (jarr [.null, .null, .str ""])

def tok0 : Token := ⟨"tk", "v"⟩

def o0 : Options := ⟨none, none, .undefined, .undefined⟩

def r0 : TranslateResult := ⟨"salut", ⟨⟨false, .str "en"⟩, ⟨false, "", false⟩⟩, .str ""⟩

/-- Environment for a successful single-request call: every code
supported, every code resolving to `en`, a valid token, and a transport
answering 200 with body `[[["salut","x"]]]`. -/
def env3 : Env :=
  { isSupported := fun _ => true
    getISOCode := fun _ => .str "en"
    tokenGen := fun _ => some tok0
    transport := fun _ =>
      .ok ⟨200, some (.arr (jarr [.arr (jarr [.arr (jarr [.str "salut", .str "x"])])])), none⟩ }

def out3 : TOut :=
  ⟨.ok r0, [("en-en-hi", r0, 86400)],
   [.tokenCall "hi", .transportCall (buildRequest (.str "en") (.str "en") "hi" tok0)],
   ⟨none, none, .bool false, .undefined⟩⟩

def r4 : TranslateResult := ⟨"ok", ⟨⟨false, .str "zz"⟩, ⟨false, "", false⟩⟩, .str ""⟩

/-- Environment whose language table supports only `en` (in particular the
empty string is unsupported) and resolves every code to `zz`. -/
def env4 : Env :=
  { isSupported := fun v => jsStrictEq v (.str "en")
    getISOCode := fun _ => .str "zz"
    tokenGen := fun _ => none
    transport := fun _ => .error "net" }

def c4 : Cache := [("zz-zz-t", r4, 5)]

def o4 : Options := ⟨some (.str ""), none, .undefined, .undefined⟩

def r9 : TranslateResult := ⟨"bonjour", ⟨⟨false, .str "fr"⟩, ⟨false, "", false⟩⟩, .str ""⟩

/-- Environment whose language table resolves `auto` to `null` (the
"not resolvable" answer of the external contract) and everything else to
`fr`. -/
def env9 : Env :=
  { isSupported := fun _ => true
    getISOCode := fun v => if jsStrictEq v (.str "auto") then .jnull else .str "fr"
    tokenGen := fun _ => none
    transport := fun _ => .error "net" }

def c9 : Cache := [("null-fr-hi", r9, 7)]

/-! ## Lemmas about the Chunk Engine -/

theorem tokAux_join (l : List Char) : ∀ (cur : List Char) (b : Bool),
    (tokAux cur b l).flatten = cur.reverse ++ l := by
  induction l with
  | nil => intro cur b; cases b <;> simp [tokAux]
  | cons c cs ih =>
    intro cur b
    simp only [tokAux]
    split
    · rw [ih]; simp
    · simp only [List.flatten_cons, ih]; simp

theorem tokenize_join (l : List Char) : (tokenize l).flatten = l := by
  simp only [tokenize, tokAux_join, List.reverse_nil, List.nil_append]

theorem hardSplitGo_join (n : Nat) : ∀ (limit : Nat) (cur : List Char),
    (hardSplitGo n limit cur).1.flatten ++ (hardSplitGo n limit cur).2 = cur := by
  induction n with
  | zero => intro limit cur; simp [hardSplitGo]
  | succ n ih =>
    intro limit cur
    simp only [hardSplitGo]
    split
    · simp only [List.flatten_cons, List.append_assoc, ih]
      exact List.take_append_drop limit cur
    · simp

theorem chunkCore_join (limit : Nat) (toks : List (List Char)) :
    ∀ cur : List Char, (chunkCore limit cur toks).flatten = cur ++ toks.flatten := by
  induction toks with
  | nil =>
    intro cur
    simp only [chunkCore]
    split
    · simp_all [List.isEmpty_iff]
    · simp
  | cons tok toks ih =>
    intro cur
    simp only [chunkCore]
    split
    · simp only [List.flatten_cons, List.flatten_append, ih, hardSplit, List.append_assoc]
      rw [← List.append_assoc ((hardSplitGo tok.length limit tok).1.flatten)]
      rw [hardSplitGo_join]
    · rw [ih]; simp

theorem join_map_mk_aux (ls : List (List Char)) : ∀ acc : List Char,
    (ls.map (fun l => (⟨l⟩ : String))).foldl (fun r s => r ++ s) ⟨acc⟩ = ⟨acc ++ ls.flatten⟩ := by
  induction ls with
  | nil => intro acc; simp
  | cons l ls ih =>
    intro acc
    simp only [List.map_cons, List.foldl_cons]
    rw [show ((⟨acc⟩ : String) ++ ⟨l⟩) = (⟨acc ++ l⟩ : String) from rfl, ih]
    simp

theorem join_map_mk (ls : List (List Char)) :
    String.join (ls.map (fun l => (⟨l⟩ : String))) = ⟨ls.flatten⟩ := by
  have := join_map_mk_aux ls []
  simpa [String.join] using this

/-- C1: for every input string and every positive limit, concatenating in
order the chunks produced by `chunkText` yields exactly the original
string, whitespace included. -/
theorem chunk_reconstruction_exact (str : String) (limit : Nat) (_h : 0 < limit) :
    String.join (chunkText str limit) = str := by
  unfold chunkText
  split
  · show String.join [str] = str
    cases str with
    | mk data =>
        have := join_map_mk_aux [data] []
        simp only [List.map_cons, List.map_nil, List.nil_append, List.flatten_cons,
          List.flatten_nil, List.append_nil] at this
        simp only [String.join]
        exact this
  · rw [join_map_mk, chunkCore_join, tokenize_join]
    simp

/-- Witness for `chunk_reconstruction_exact` at a concrete input. -/
theorem chunk_reconstruction_exact_witness :
    0 < 3 ∧ String.join (chunkText "ab cd ef" 3) = "ab cd ef" :=
  ⟨by decide, chunk_reconstruction_exact "ab cd ef" 3 (by decide)⟩

theorem hardSplitGo_no_split (n limit : Nat) (cur : List Char) (h : cur.length ≤ limit) :
    hardSplitGo n limit cur = ([], cur) := by
  cases n with
  | zero => rfl
  | succ n =>
    simp only [hardSplitGo]
    split
    · next hcond =>
        simp only [Bool.and_eq_true, decide_eq_true_eq] at hcond
        omega
    · rfl

theorem chunkCore_bounded (limit : Nat) (toks : List (List Char)) :
    ∀ cur : List Char, cur.length ≤ limit → (∀ t ∈ toks, t.length ≤ limit) →
    ∀ p ∈ chunkCore limit cur toks, p.length ≤ limit := by
  induction toks with
  | nil =>
    intro cur hc _ p hp
    simp only [chunkCore] at hp
    split at hp
    · simp at hp
    · simp only [List.mem_singleton] at hp
      subst hp; exact hc
  | cons tok toks ih =>
    intro cur hc htoks p hp
    have htok : tok.length ≤ limit := htoks tok (by simp)
    have htoks' : ∀ t ∈ toks, t.length ≤ limit := fun t ht => htoks t (by simp [ht])
    simp only [chunkCore] at hp
    split at hp
    · rw [hardSplit, hardSplitGo_no_split _ _ _ htok] at hp
      simp only [List.nil_append, List.mem_cons] at hp
      rcases hp with rfl | hp
      · exact hc
      · exact ih tok htok htoks' p hp
    · next hcond =>
        have hor : (cur ++ tok).length ≤ limit ∨ cur = [] := by
          rcases le_or_lt (cur ++ tok).length limit with h1 | h1
          · exact .inl h1
          · right
            by_contra hcur
            simp only [List.length_append] at h1
            exact hcond (by simp [List.isEmpty_iff, hcur, List.length_append, h1])
        rcases hor with h1 | h1
        · exact ih (cur ++ tok) h1 htoks' p hp
        · subst h1
          exact ih ([] ++ tok) (by simpa using htok) htoks' p hp

/-- C2 counterexample: a single token longer than the limit that starts
while the running chunk is empty is emitted whole, as one over-long chunk,
instead of being hard-split. -/
theorem chunk_overlong_first_token :
    chunkText "aaaaa" 3 = ["aaaaa"] ∧ ∃ chunk ∈ chunkText "aaaaa" 3, 3 < chunk.length :=
  ⟨rfl, by decide⟩

/-- C2 amended: every chunk produced by `chunkText` has length at most the
limit provided every token of the whitespace-keeping split is itself at
most the limit; the hard character split only applies to an over-long
token that arrives while the running chunk is non-empty. -/
theorem chunk_size_bounded_of_tokens_bounded (str : String) (limit : Nat)
    (htok : ∀ t ∈ tokenize str.data, t.length ≤ limit) :
    ∀ chunk ∈ chunkText str limit, chunk.length ≤ limit := by
  intro chunk hc
  unfold chunkText at hc
  split at hc
  · next hlen =>
      simp only [List.mem_singleton] at hc
      subst hc; exact hlen
  · obtain ⟨l, hl, rfl⟩ := List.mem_map.mp hc
    exact chunkCore_bounded limit _ [] (by simp) htok l hl

/-- Witness for `chunk_size_bounded_of_tokens_bounded` at a concrete
input. -/
theorem chunk_size_bounded_of_tokens_bounded_witness :
    (∀ t ∈ tokenize ("ab cd ef" : String).data, t.length ≤ 3) ∧
    ∀ chunk ∈ chunkText "ab cd ef" 3, chunk.length ≤ 3 :=
  ⟨by decide, chunk_size_bounded_of_tokens_bounded "ab cd ef" 3 (by decide)⟩

/-! ## Lemmas about the Response Parser -/

/-- Scalar strict equality implies propositional equality (the `arr` case
of `jsStrictEq` is reference equality and never `true` here). -/
theorem jsStrictEq_eq {a b : JVal} (h : jsStrictEq a b = true) : a = b := by
  cases a <;> cases b <;> simp_all [jsStrictEq]

/-- C5 counterexample: a body whose index 7 holds an array with a truthy
non-string first element makes the extraction throw a TypeError, so the
parser does not extract a result for every decoded body shape. -/
theorem parser_throws_on_nonstring_suggestion :
    extract false (.str "auto")
        (.arr (jarr [.null, .null, .null, .null, .null, .null, .null, .arr (jarr [.num 42])])) =
      .error (.typeError "str.replace is not a function") := rfl

theorem mkTextDet_ok_of_str (body : JVal)
    (hstr : ∀ xs, optIndex body 7 = .arr xs → truthy (jsIndex (.arr xs) 0) = true →
      ∃ s, jsIndex (.arr xs) 0 = .str s) :
    ∃ td, mkTextDet body = .ok td := by
  unfold mkTextDet
  cases h7 : optIndex body 7 with
  | arr xs =>
      dsimp only
      by_cases h0 : truthy (jsIndex (.arr xs) 0) = true
      · obtain ⟨s, hs⟩ := hstr xs h7 h0
        rw [if_pos h0, hs]
        dsimp only
        by_cases h5 : jsStrictEq (jsIndex (.arr xs) 5) (.bool true) = true
        · rw [if_pos h5]; exact ⟨_, rfl⟩
        · rw [if_neg h5]; exact ⟨_, rfl⟩
      · rw [if_neg h0]
        exact ⟨_, rfl⟩
  | undefined => exact ⟨_, rfl⟩
  | null => exact ⟨_, rfl⟩
  | bool b => exact ⟨_, rfl⟩
  | num n => exact ⟨_, rfl⟩
  | str s => exact ⟨_, rfl⟩

theorem decodeBody_error_iff (sc : Nat) (js tj : Option JVal) :
    decodeBody ⟨sc, js, tj⟩ = .error (.api 502 "Unexpected translate response format") ↔
      js = none ∧ tj = none := by
  cases js <;> cases tj <;> simp [decodeBody]

theorem decodeBody_error_code (sc : Nat) (js tj : Option JVal) (e : Err)
    (h : decodeBody ⟨sc, js, tj⟩ = .error e) :
    e = .api 502 "Unexpected translate response format" := by
  cases js <;> cases tj <;> simp [decodeBody] at h
  simp [h]

/-- C5 amended: the extraction step never throws provided any truthy first
element of an array at index 7 is a string; and a response-format error is
raised exactly when both the direct JSON decode and the text-then-parse
fallback fail, every such error carrying code 502. -/
theorem parser_total_and_502 :
    (∀ (rawFlag : Bool) (fromISO : ISORes) (body : JVal),
        (∀ xs, optIndex body 7 = .arr xs → truthy (jsIndex (.arr xs) 0) = true →
          ∃ s, jsIndex (.arr xs) 0 = .str s) →
        ∃ res, extract rawFlag fromISO body = .ok res) ∧
    (∀ resp : Response,
        decodeBody resp = .error (.api 502 "Unexpected translate response format") ↔
          resp.json = none ∧ resp.textJson = none) ∧
    (∀ (resp : Response) (e : Err), decodeBody resp = .error e →
        e = .api 502 "Unexpected translate response format") := by
  refine ⟨?_, ?_, ?_⟩
  · intro rawFlag fromISO body hstr
    obtain ⟨td, htd⟩ := mkTextDet_ok_of_str body hstr
    unfold extract
    rw [htd]
    exact ⟨_, rfl⟩
  · rintro ⟨sc, js, tj⟩
    exact decodeBody_error_iff sc js tj
  · rintro ⟨sc, js, tj⟩ e h
    exact decodeBody_error_code sc js tj e h

/-- Witness for `parser_total_and_502` at concrete inputs. -/
theorem parser_total_and_502_witness :
    (∃ res, extract false (.str "en") (.arr (jarr [.null, .str "en"])) = .ok res) ∧
    (decodeBody ⟨200, none, none⟩ = .error (.api 502 "Unexpected translate response format") ↔
      (none : Option JVal) = none ∧ (none : Option JVal) = none) :=
  ⟨parser_total_and_502.1 false (.str "en") (.arr (jarr [.null, .str "en"]))
      (by intro xs hxs; simp [optIndex, jsIndex, jarr, JArr.get?] at hxs),
   parser_total_and_502.2.1 ⟨200, none, none⟩⟩

/-- C6 counterexample: for the body `[null, null, ""]` the detected value
(the empty string at index 2) differs from the requested source `auto`,
yet the result reports `didYouMean = false` and the requested code, because
the falsy detected value fails the truthiness guard. -/
theorem detection_flag_falsy_detected :
    detectedOf body6 (.str "auto") = .str "" ∧
    JVal.str "" ≠ JVal.str "auto" ∧
    extract false (.str "auto") body6 =
      .ok ⟨"", ⟨⟨false, .str "auto"⟩, ⟨false, "", false⟩⟩, .str ""⟩ :=
  ⟨rfl, by intro h; injection h with h; exact absurd h (by decide), rfl⟩

/-- C6 amended: the detected language is the coalescing chain over paths
`[8][0][0]`, `[2]` and the requested source; a truthy detected value that
strictly differs from the requested source yields `didYouMean = true` and
the detected code; a detected value strictly equal to the requested source,
or a falsy detected value (such as the empty string), yields
`didYouMean = false` and the requested code. The language fields of a
successful extraction are exactly `mkLangDet`. -/
theorem detection_flag_rules :
    (∀ body fromJ : JVal, truthy (detectedOf body fromJ) = true →
        jsStrictEq (detectedOf body fromJ) fromJ = false →
        mkLangDet body fromJ = ⟨true, detectedOf body fromJ⟩) ∧
    (∀ body fromJ : JVal, jsStrictEq (detectedOf body fromJ) fromJ = true →
        mkLangDet body fromJ = ⟨false, fromJ⟩) ∧
    (∀ body fromJ : JVal, truthy (detectedOf body fromJ) = false →
        mkLangDet body fromJ = ⟨false, fromJ⟩) ∧
    (∀ (rawFlag : Bool) (fromISO : ISORes) (body : JVal) (res : TranslateResult),
        extract rawFlag fromISO body = .ok res →
        res.from_.language = mkLangDet body fromISO.toJVal) := by
  refine ⟨?_, ?_, ?_, ?_⟩
  · intro body fromJ h1 h2
    unfold mkLangDet
    rw [if_pos (by simp [h1, h2])]
  · intro body fromJ h
    have heq := jsStrictEq_eq h
    unfold mkLangDet
    rw [if_neg (by simp [h])]
    by_cases ht : truthy (detectedOf body fromJ) = true
    · rw [if_pos ht, heq]
    · rw [if_neg ht]
  · intro body fromJ h
    unfold mkLangDet
    rw [if_neg (by simp [h]), if_neg (by simp [h])]
  · intro rawFlag fromISO body res h
    unfold extract at h
    cases htd : mkTextDet body with
    | error e => rw [htd] at h; cases h
    | ok td => rw [htd] at h; injection h with h; subst h; rfl

/-- Witness for `detection_flag_rules` at concrete inputs. -/
theorem detection_flag_rules_witness :
    mkLangDet (.arr (jarr [.null, .null, .str "en"])) (.str "auto") =
      ⟨true, detectedOf (.arr (jarr [.null, .null, .str "en"])) (.str "auto")⟩ :=
  detection_flag_rules.1 (.arr (jarr [.null, .null, .str "en"])) (.str "auto")
    (by decide) (by decide)

/-- C7: when index 7 of the body holds an array whose first element is a
non-empty string, the extraction succeeds; the stored suggestion text is
that element with every occurrence of the opening emphasis marker rewritten
to an opening bracket and every closing marker to a closing bracket;
`autoCorrected` is set exactly when `[7][5]` is the boolean `true`, and
exactly one of `autoCorrected`/`didYouMean` is set, never both and never
neither. -/
theorem suggestion_flags_exclusive (body : JVal) (xs : JArr) (s : String)
    (h7 : optIndex body 7 = .arr xs) (h0 : jsIndex (.arr xs) 0 = .str s) (hne : s ≠ "") :
    ∃ td, mkTextDet body = .ok td ∧
      td.value = replaceAll (replaceAll s "<b><i>" "[") "</i></b>" "]" ∧
      (td.autoCorrected = true ↔ jsStrictEq (jsIndex (.arr xs) 5) (.bool true) = true) ∧
      ((td.autoCorrected = true ∧ td.didYouMean = false) ∨
       (td.autoCorrected = false ∧ td.didYouMean = true)) ∧
      ∀ (rawFlag : Bool) (fromISO : ISORes),
        extract rawFlag fromISO body =
          .ok ⟨extractText body, ⟨mkLangDet body fromISO.toJVal, td⟩,
               if rawFlag then body else .str ""⟩ := by
  have htr : truthy (jsIndex (.arr xs) 0) = true := by rw [h0]; simp [truthy, hne]
  by_cases h5 : jsStrictEq (jsIndex (.arr xs) 5) (.bool true) = true
  · have hmk : mkTextDet body =
        .ok ⟨true, replaceAll (replaceAll s "<b><i>" "[") "</i></b>" "]", false⟩ := by
      unfold mkTextDet
      rw [h7]; dsimp only
      rw [if_pos htr, h0]; dsimp only
      rw [if_pos h5]
    refine ⟨_, hmk, rfl, by simp [h5], Or.inl ⟨rfl, rfl⟩, ?_⟩
    intro rawFlag fromISO
    unfold extract
    rw [hmk]
  · have hmk : mkTextDet body =
        .ok ⟨false, replaceAll (replaceAll s "<b><i>" "[") "</i></b>" "]", true⟩ := by
      unfold mkTextDet
      rw [h7]; dsimp only
      rw [if_pos htr, h0]; dsimp only
      rw [if_neg h5]
    refine ⟨_, hmk, rfl, by simp [h5], Or.inr ⟨rfl, rfl⟩, ?_⟩
    intro rawFlag fromISO
    unfold extract
    rw [hmk]

/-- Witness for `suggestion_flags_exclusive` at a concrete body. -/
theorem suggestion_flags_exclusive_witness :
    ∃ td, mkTextDet body7 = .ok td ∧
      td.value = replaceAll (replaceAll "<b><i>helo</i></b>" "<b><i>" "[") "</i></b>" "]" ∧
      (td.autoCorrected = true ↔
        jsStrictEq (jsIndex (.arr suggestionArr) 5) (.bool true) = true) ∧
      ((td.autoCorrected = true ∧ td.didYouMean = false) ∨
       (td.autoCorrected = false ∧ td.didYouMean = true)) ∧
      ∀ (rawFlag : Bool) (fromISO : ISORes),
        extract rawFlag fromISO body7 =
          .ok ⟨extractText body7, ⟨mkLangDet body7 fromISO.toJVal, td⟩,
               if rawFlag then body7 else .str ""⟩ :=
  suggestion_flags_exclusive body7 suggestionArr "<b><i>helo</i></b>" rfl rfl (by decide)

/-! ## Lemmas about the Request Builder -/

theorem objSet_mem_of_ne {m : List (String × QVal)} {k' : String} {v' : QVal}
    (k : String) (v : QVal) (hne : k' ≠ k) (hmem : (k', v') ∈ m) :
    (k', v') ∈ objSet m k v := by
  unfold objSet
  split
  · have : (k' == k) = false := by simp [hne]
    have := List.mem_map_of_mem (fun p => if p.1 == k then (k, v) else p) hmem
    simpa [this, hne] using this
  · exact List.mem_append_left _ hmem

theorem objDel_not_mem (m : List (String × QVal)) (k : String) :
    ∀ v, (k, v) ∉ objDel m k := by
  intro v hv
  rw [objDel, List.mem_filter] at hv
  simp at hv

/-- C8: the Request Builder issues a GET with the text inline as parameter
`q` exactly when the fully-encoded GET URL is at most 2048 characters;
otherwise it issues a single POST whose URL parameters omit `q` and whose
URL-encoded body carries `q=<text>`. The choice is a single length check
on the pre-built URL; no other request is constructed. (The hypothesis
keeps the dynamically-named token parameter from being literally named
`q`, in which case it would overwrite the text parameter.) -/
theorem request_strategy_threshold (fromISO toISO : ISORes) (text : String) (tok : Token)
    (hq : tok.name ≠ "q") :
    ((getUrl fromISO toISO text tok).length ≤ 2048 →
      buildRequest fromISO toISO text tok = .get (getUrl fromISO toISO text tok) ∧
      ("q", QVal.s text) ∈ mkData fromISO toISO text tok) ∧
    (2048 < (getUrl fromISO toISO text tok).length →
      buildRequest fromISO toISO text tok =
        .post (baseUrl ++ "?" ++ qsStringify (objDel (mkData fromISO toISO text tok) "q"))
          (formBody text) ∧
      ∀ v, ("q", v) ∉ objDel (mkData fromISO toISO text tok) "q") := by
  constructor
  · intro hle
    constructor
    · unfold buildRequest
      rw [if_neg (by omega)]
    · unfold mkData
      refine objSet_mem_of_ne tok.name (.s tok.value) (fun h => hq h.symm) ?_
      simp [fixedData]
  · intro hgt
    constructor
    · unfold buildRequest
      rw [if_pos hgt]
    · exact objDel_not_mem _ _

set_option maxRecDepth 8192 in
/-- Witness for `request_strategy_threshold`: a short text stays inline in
a GET. -/
theorem request_strategy_threshold_witness :
    buildRequest (.str "en") (.str "en") "hi" tok0 = .get (getUrl (.str "en") (.str "en") "hi" tok0) ∧
    ("q", QVal.s "hi") ∈ mkData (.str "en") (.str "en") "hi" tok0 :=
  (request_strategy_threshold (.str "en") (.str "en") "hi" tok0 (by decide)).1 (by decide)

/-! ## Lemmas about the Orchestrator -/

theorem cacheGet_eq_some {c : Cache} {now : Nat} {key : String} {r : TranslateResult}
    (h : cacheGet c now key = some r) :
    ∃ e, cacheLookup c key = some (r, e) ∧ now < e := by
  unfold cacheGet at h
  cases hl : cacheLookup c key with
  | none => rw [hl] at h; cases h
  | some p =>
      obtain ⟨v, e⟩ := p
      rw [hl] at h
      dsimp only at h
      by_cases ht : now < e
      · rw [if_pos ht] at h
        injection h with h
        subst h
        exact ⟨e, rfl, ht⟩
      · rw [if_neg ht] at h
        cases h

theorem cacheLookup_set_self (c : Cache) (now : Nat) (key : String) (v : TranslateResult) :
    cacheLookup (cacheSet c now key v) key = some (v, now + cacheTTL) := by
  simp [cacheSet, cacheLookup]

/-- On a validated call whose normalized key is fresh in the cache, the
orchestrator returns the cached result at once, leaves the cache alone,
performs no token or transport interaction, and mutates only `raw`. -/
theorem translateF_cache_hit (env : Env) (f now : Nat) (c : Cache) (text : String)
    (o : Options) (r : TranslateResult) (hf : 0 < f)
    (hval : validateLangs env o = none)
    (hget : cacheGet c now (mkKey (normFrom env o) (normTo env o) text) = some r) :
    translateF f env now c text o = some ⟨.ok r, c, [], mutOpts o⟩ := by
  obtain ⟨f, rfl⟩ : ∃ g, f = g + 1 := ⟨f - 1, by omega⟩
  simp only [translateF]
  rw [hval]
  dsimp only
  rw [hget]

/-- A successful call always leaves its result in the final cache under
the normalized key. -/
theorem translateF_ok_cached (env : Env) (f now : Nat) (c : Cache) (text : String)
    (o : Options) (out : TOut) (r : TranslateResult)
    (h : translateF f env now c text o = some out) (hr : out.res = .ok r) :
    ∃ e, cacheLookup out.cache (mkKey (normFrom env o) (normTo env o) text) = some (r, e) := by
  cases f with
  | zero => cases h
  | succ f =>
    simp only [translateF] at h
    cases hval : validateLangs env o with
    | some err =>
        rw [hval] at h
        dsimp only at h
        injection h with h
        subst h
        simp at hr
    | none =>
      rw [hval] at h
      dsimp only at h
      cases hget : cacheGet c now (mkKey (normFrom env o) (normTo env o) text) with
      | some rc =>
          rw [hget] at h
          dsimp only at h
          injection h with h
          subst h
          simp only at hr
          injection hr with hr
          subst hr
          obtain ⟨e, hl, _⟩ := cacheGet_eq_some hget
          exact ⟨e, hl⟩
      | none =>
          rw [hget] at h
          dsimp only at h
          split at h
          · -- chunked path
            split at h
            · cases h
            · injection h with h
              subst h
              simp at hr
            · injection h with h
              subst h
              simp only at hr
              injection hr with hr
              subst hr
              exact ⟨now + cacheTTL, cacheLookup_set_self ..⟩
          · -- single-request path
            cases htok : env.tokenGen text with
            | none =>
                rw [htok] at h
                dsimp only at h
                injection h with h
                subst h
                simp at hr
            | some tok =>
              rw [htok] at h
              dsimp only at h
              split at h
              · injection h with h
                subst h
                simp at hr
              · split at h
                · injection h with h
                  subst h
                  simp at hr
                · split at h
                  · injection h with h
                    subst h
                    simp at hr
                  · split at h
                    · injection h with h
                      subst h
                      simp at hr
                    · split at h
                      · injection h with h
                        subst h
                        simp at hr
                      · injection h with h
                        subst h
                        simp only at hr
                        injection hr with hr
                        subst hr
                        exact ⟨now + cacheTTL, cacheLookup_set_self ..⟩

/-- C3: when a call succeeds, its result is stored in the final cache
under the normalized key, and any later call with the same normalized
`(from, to, text)` triple made before that entry expires returns the
identical result, leaves the cache unchanged, performs no token-generator
and no transport interaction, and only mutates `raw` on its options. -/
theorem cache_idempotent_second_call (env : Env) (f now : Nat) (c : Cache) (text : String)
    (o : Options) (out : TOut) (r : TranslateResult)
    (h : translateF f env now c text o = some out) (hr : out.res = .ok r) :
    ∃ e, cacheLookup out.cache (mkKey (normFrom env o) (normTo env o) text) = some (r, e) ∧
      ∀ (f2 now2 : Nat) (o2 : Options), 0 < f2 → now2 < e →
        validateLangs env o2 = none →
        normFrom env o2 = normFrom env o → normTo env o2 = normTo env o →
        translateF f2 env now2 out.cache text o2 = some ⟨.ok r, out.cache, [], mutOpts o2⟩ := by
  obtain ⟨e, hl⟩ := translateF_ok_cached env f now c text o out r h hr
  refine ⟨e, hl, ?_⟩
  intro f2 now2 o2 hf2 hnow hval2 hfrom hto
  apply translateF_cache_hit env f2 now2 out.cache text o2 r hf2 hval2
  rw [hfrom, hto]
  unfold cacheGet
  rw [hl]
  dsimp only
  rw [if_pos hnow]

/-- Witness for `cache_idempotent_second_call`: a concrete successful
call through token, transport and parser. -/
theorem cache_idempotent_second_call_witness :
    ∃ e, cacheLookup out3.cache (mkKey (normFrom env3 o0) (normTo env3 o0) "hi") = some (r0, e) ∧
      ∀ (f2 now2 : Nat) (o2 : Options), 0 < f2 → now2 < e →
        validateLangs env3 o2 = none →
        normFrom env3 o2 = normFrom env3 o0 → normTo env3 o2 = normTo env3 o0 →
        translateF f2 env3 now2 out3.cache "hi" o2 =
          some ⟨.ok r0, out3.cache, [], mutOpts o2⟩ :=
  cache_idempotent_second_call env3 1 0 [] "hi" o0 out3 r0 (by rfl) rfl

/-- C4 counterexample: a caller-supplied `from` that the language table
does not support is skipped by validation when it is falsy (the empty
string): the call raises no 400 error, proceeds, and even serves a cache
hit. -/
theorem validation_skips_falsy_code :
    env4.isSupported (.str "") = false ∧
    translateF 1 env4 0 c4 "t" o4 =
      some ⟨.ok r4, c4, [], ⟨some (.str ""), none, .bool false, .undefined⟩⟩ :=
  ⟨rfl, rfl⟩

/-- C4 amended: a caller-supplied truthy `from` or `to` failing
`isSupported` makes the call fail with a 400 error before touching the
cache, the token generator or the transport (cache unchanged, no effects,
options not yet mutated); when `to` is truthy and unsupported the single
raised error reports the `to` code, because `to` is validated second and
overwrites the pending error. -/
theorem validation_fails_fast_truthy (env : Env) (f now : Nat) (c : Cache) (text : String)
    (o : Options) (hf : 0 < f)
    (hbad : (truthy (o.from_.getD .undefined) && !env.isSupported (o.from_.getD .undefined)) = true ∨
            (truthy (o.to_.getD .undefined) && !env.isSupported (o.to_.getD .undefined)) = true) :
    ∃ msg, translateF f env now c text o = some ⟨.error (.api 400 msg), c, [], o⟩ ∧
      ((truthy (o.to_.getD .undefined) && !env.isSupported (o.to_.getD .undefined)) = true →
        msg = "The language '" ++ jsToString (o.to_.getD .undefined) ++ "' is not supported.") := by
  obtain ⟨f, rfl⟩ : ∃ g, f = g + 1 := ⟨f - 1, by omega⟩
  by_cases hto : (truthy (o.to_.getD .undefined) && !env.isSupported (o.to_.getD .undefined)) = true
  · have hv : validateLangs env o = some
        (.api 400 ("The language '" ++ jsToString (o.to_.getD .undefined) ++ "' is not supported.")) := by
      unfold validateLangs langCheck
      rw [if_pos hto]
    refine ⟨_, ?_, fun _ => rfl⟩
    simp only [translateF]
    rw [hv]
  · rcases hbad with hfrom | hbad2
    · have hv : validateLangs env o = some
          (.api 400 ("The language '" ++ jsToString (o.from_.getD .undefined) ++ "' is not supported.")) := by
        unfold validateLangs langCheck
        rw [if_neg hto, if_pos hfrom]
      refine ⟨"The language '" ++ jsToString (o.from_.getD .undefined) ++ "' is not supported.",
        ?_, fun hcon => absurd hcon hto⟩
      simp only [translateF]
      rw [hv]
    · exact absurd hbad2 hto

/-- Witness for `validation_fails_fast_truthy`: a truthy unsupported `to`
code fails with a 400 naming that code. -/
theorem validation_fails_fast_truthy_witness :
    ∃ msg, translateF 1 env4 0 c4 "t" ⟨none, some (.str "xx"), .undefined, .undefined⟩ =
        some ⟨.error (.api 400 msg), c4, [], ⟨none, some (.str "xx"), .undefined, .undefined⟩⟩ ∧
      ((truthy ((some (JVal.str "xx")).getD .undefined) &&
          !env4.isSupported ((some (JVal.str "xx")).getD .undefined)) = true →
        msg = "The language '" ++ jsToString ((some (JVal.str "xx")).getD .undefined) ++
          "' is not supported.") :=
  validation_fails_fast_truthy env4 1 0 c4 "t" ⟨none, some (.str "xx"), .undefined, .undefined⟩
    (by decide) (Or.inr (by decide))

/-- C9 counterexample: with a language table resolving `auto` to `null`,
a defaulted call is not treated as a validation failure; the `null` is
coerced into the cache key as the literal string `null` and the call
serves a cache hit stored under `"null-fr-hi"`. -/
theorem null_iso_coerced_into_key :
    env9.getISOCode (.str "auto") = .jnull ∧
    mkKey .jnull (.str "fr") "hi" = "null-fr-hi" ∧
    translateF 1 env9 0 c9 "hi" o0 =
      some ⟨.ok r9, c9, [], ⟨none, none, .bool false, .undefined⟩⟩ :=
  ⟨rfl, rfl, rfl⟩

/-- C9 amended: when `getISOCode` yields `null` for the (possibly
defaulted) source code, `translate` does not fail; the `null` is coerced
to the literal string `null` inside the cache key, under which the call
reads and serves cached results as usual. -/
theorem null_iso_flows_to_cache_key (env : Env) (f now : Nat) (c : Cache) (text : String)
    (o : Options) (r : TranslateResult) (hf : 0 < f)
    (hval : validateLangs env o = none)
    (hfrom : normFrom env o = .jnull)
    (hget : cacheGet c now (mkKey .jnull (normTo env o) text) = some r) :
    translateF f env now c text o = some ⟨.ok r, c, [], mutOpts o⟩ ∧
    mkKey .jnull (normTo env o) text = "null-" ++ (normTo env o).render ++ "-" ++ text := by
  constructor
  · apply translateF_cache_hit env f now c text o r hf hval
    rw [hfrom]
    exact hget
  · rfl

/-- Witness for `null_iso_flows_to_cache_key` at the concrete `env9`. -/
theorem null_iso_flows_to_cache_key_witness :
    translateF 2 env9 5 c9 "hi" o0 = some ⟨.ok r9, c9, [], mutOpts o0⟩ ∧
    mkKey .jnull (normTo env9 o0) "hi" = "null-" ++ (normTo env9 o0).render ++ "-" ++ "hi" :=
  null_iso_flows_to_cache_key env9 2 5 c9 "hi" o0 r9 (by decide) rfl rfl rfl

/-- C10: a call that passes language validation mutates the caller's
options in place, setting `raw` to its boolean coercion; the other own
properties `from`, `to` and `maxChunkChars` are returned unchanged. -/
theorem translate_mutates_only_raw (env : Env) (f now : Nat) (c : Cache) (text : String)
    (o : Options) (out : TOut)
    (h : translateF f env now c text o = some out) (hval : validateLangs env o = none) :
    out.opts = ⟨o.from_, o.to_, .bool (truthy o.raw), o.maxChunkChars⟩ := by
  have hm : mutOpts o = ⟨o.from_, o.to_, .bool (truthy o.raw), o.maxChunkChars⟩ := by
    cases o; rfl
  cases f with
  | zero => cases h
  | succ f =>
    simp only [translateF] at h
    rw [hval] at h
    dsimp only at h
    cases hget : cacheGet c now (mkKey (normFrom env o) (normTo env o) text) with
    | some rc =>
        rw [hget] at h
        dsimp only at h
        injection h with h
        subst h
        exact hm
    | none =>
        rw [hget] at h
        dsimp only at h
        split at h
        · split at h
          · cases h
          · injection h with h
            subst h
            exact hm
          · injection h with h
            subst h
            exact hm
        · cases htok : env.tokenGen text with
          | none =>
              rw [htok] at h
              dsimp only at h
              injection h with h
              subst h
              exact hm
          | some tok =>
            rw [htok] at h
            dsimp only at h
            split at h
            · injection h with h
              subst h
              exact hm
            · split at h
              · injection h with h
                subst h
                exact hm
              · split at h
                · injection h with h
                  subst h
                  exact hm
                · split at h
                  · injection h with h
                    subst h
                    exact hm
                  · split at h
                    · injection h with h
                      subst h
                      exact hm
                    · injection h with h
                      subst h
                      exact hm

/-- Witness for `translate_mutates_only_raw` at a concrete call. -/
theorem translate_mutates_only_raw_witness :
    out3.opts = ⟨(o0 : Options).from_, o0.to_, .bool (truthy o0.raw), o0.maxChunkChars⟩ :=
  translate_mutates_only_raw env3 1 0 [] "hi" o0 out3 (by rfl) rfl
